import Mathlib

/-!
Shallow embedding of the audio core of the "Thiptine's Day" page
(recorder / audio-engine / exporter modules), together with theorems
checking the natural-language specification against it.

Conventions of the embedding:
* JavaScript numbers that hold audio samples, times and gains are modelled
  as rationals (`ℚ`); the concrete values exercised below are all dyadic
  and exact in binary floating point.
* Byte buffers (`ArrayBuffer` contents) are modelled as `List Nat`, one
  entry per byte, each in `[0, 256)`.
* JavaScript objects reachable from several places are modelled by an
  explicit heap keyed by object reference; for clip objects the reference
  is identified with the clip's `id` field, which is assigned once and
  never mutated.
-/

namespace ThiptinesDay

/-! ## Byte-level primitives (DataView writes, little endian) -/

/-- Little-endian bytes of `setUint16` (value taken mod 2^16, as a
`DataView` does). -/
def uint16le (v : Nat) : List Nat :=
  [v % 256, v / 256 % 256]

/-- Little-endian bytes of `setUint32` (value taken mod 2^32). -/
def uint32le (v : Nat) : List Nat :=
  [v % 256, v / 256 % 256, v / 65536 % 256, v / 16777216 % 256]

/-- Little-endian bytes of `setInt16`: two's-complement wrap of an integer
to 16 bits, then the two bytes. -/
def int16le (v : Int) : List Nat :=
  uint16le (v % 65536).toNat

/-- `_writeString`: the ASCII codes of a string, one byte each. -/
def writeString (s : String) : List Nat :=
  s.toList.map Char.toNat

/-- Read back an unsigned little-endian 16-bit value at byte offset
`off`. -/
def readU16le (bytes : List Nat) (off : Nat) : Nat :=
  bytes.getD off 0 + 256 * bytes.getD (off + 1) 0

/-- Read back an unsigned little-endian 32-bit value at byte offset
`off`. -/
def readU32le (bytes : List Nat) (off : Nat) : Nat :=
  bytes.getD off 0 + 256 * bytes.getD (off + 1) 0
    + 65536 * bytes.getD (off + 2) 0 + 16777216 * bytes.getD (off + 3) 0

/-- Interpret an unsigned 16-bit value as a two's-complement signed
integer. -/
def toSigned16 (u : Nat) : Int :=
  if u < 32768 then (u : Int) else (u : Int) - 65536

/-! ## AudioBuffer and the WAV encoder (`exporter.js`) -/

/-- Model of a Web Audio `AudioBuffer`: per-channel sample data at a fixed
sample rate. -/
structure AudioBuffer where
  numberOfChannels : Nat
  sampleRate : Nat
  channels : List (List ℚ)
  deriving Repr, DecidableEq

/-- `buffer.getChannelData(i)`. -/
def AudioBuffer.getChannelData (b : AudioBuffer) (i : Nat) : List ℚ :=
  b.channels.getD i []

/-- `Math.min`, written out so that it evaluates by kernel reduction. -/
def jsMin (a b : ℚ) : ℚ :=
  if a ≤ b then a else b

/-- `Math.max`, written out so that it evaluates by kernel reduction. -/
def jsMax (a b : ℚ) : ℚ :=
  if a ≤ b then b else a

/-- JavaScript truncation toward zero (`ToIntegerOrInfinity`), on an exact
rational. -/
def jsTrunc (q : ℚ) : Int :=
  if q < 0 then ⌈q⌉ else ⌊q⌋

/-- `Math.max(-1, Math.min(1, x))`: the clamp applied to each sample in the
WAV writer loop. -/
def clampSample (s : ℚ) : ℚ :=
  jsMax (-1) (jsMin 1 s)

/-- The per-sample quantization performed by the WAV writer loop
(`exporter.js` lines 377–378): clamp to `[-1,1]`, scale negatives by
`0x8000` and non-negatives by `0x7FFF`, then truncate to an integer when
stored through `setInt16`. -/
def quantize (s : ℚ) : Int :=
  jsTrunc (if clampSample s < 0 then clampSample s * 32768 else clampSample s * 32767)

/-- The interleaving step at the top of `audioBufferToWav`: mono uses
channel 0 directly; otherwise channels 0 and 1 are interleaved
`L0 R0 L1 R1 …`. -/
def interleave (b : AudioBuffer) : List ℚ :=
  if b.numberOfChannels = 1 then b.getChannelData 0
  else
    ((b.getChannelData 0).zipWith (fun l r => [l, r]) (b.getChannelData 1)).flatten

/-- `audioBufferToWav` (`exporter.js` lines 329–383).  The writes of the
source fill the 44-byte header and then the sample area at consecutive,
non-overlapping offsets that exactly tile the zero-initialised
`ArrayBuffer`, so the result is the concatenation of the written fields in
source order. -/
def audioBufferToWav (b : AudioBuffer) : List Nat :=
  let numChannels := b.numberOfChannels
  let sampleRate := b.sampleRate
  let interleaved := interleave b
  let dataLength := interleaved.length * 2
  let totalLength := 44 + dataLength
  writeString "RIFF" ++ uint32le (totalLength - 8) ++ writeString "WAVE"
    ++ writeString "fmt " ++ uint32le 16 ++ uint16le 1
    ++ uint16le numChannels ++ uint32le sampleRate
    ++ uint32le (sampleRate * numChannels * 2) ++ uint16le (numChannels * 2)
    ++ uint16le 16 ++ writeString "data" ++ uint32le dataLength
    ++ (interleaved.map (fun s => int16le (quantize s))).flatten

/-! ### Evaluation lemmas for `quantize` on the spec's sample values -/

theorem quantize_zero : quantize 0 = 0 := by
  simp only [quantize, clampSample, jsMax, jsMin, jsTrunc]
  norm_num

theorem quantize_half : quantize (1/2) = 16383 := by
  simp only [quantize, clampSample, jsMax, jsMin, jsTrunc]
  norm_num

theorem quantize_neg_half : quantize (-(1/2)) = -16384 := by
  simp only [quantize, clampSample, jsMax, jsMin, jsTrunc]
  norm_num [Int.ceil_eq_iff]

theorem quantize_one : quantize 1 = 32767 := by
  simp only [quantize, clampSample, jsMax, jsMin, jsTrunc]
  norm_num

theorem quantize_neg_one : quantize (-1) = -32768 := by
  simp only [quantize, clampSample, jsMax, jsMin, jsTrunc]
  norm_num [Int.ceil_eq_iff]

/-! ### Range of the quantizer and 16-bit round trip -/

theorem clampSample_mem (s : ℚ) : -1 ≤ clampSample s ∧ clampSample s ≤ 1 := by
  unfold clampSample jsMax jsMin
  split_ifs with h1 h2 h3 <;> constructor <;> linarith

theorem quantize_lower (s : ℚ) : -32768 ≤ quantize s := by
  obtain ⟨hl, hu⟩ := clampSample_mem s
  unfold quantize jsTrunc
  by_cases hc : clampSample s < 0
  · rw [if_pos hc, if_pos (by nlinarith)]
    have h1 : ((-32768 : ℤ) : ℚ) ≤ clampSample s * 32768 := by push_cast; nlinarith
    simpa using Int.ceil_le_ceil h1
  · rw [if_neg hc]
    have h0 : (0 : ℚ) ≤ clampSample s * 32767 := by nlinarith [not_lt.mp hc]
    have : ¬ clampSample s * 32767 < 0 := not_lt.mpr h0
    rw [if_neg this]
    exact le_trans (by norm_num) (Int.floor_nonneg.mpr h0)

theorem quantize_upper (s : ℚ) : quantize s ≤ 32767 := by
  obtain ⟨hl, hu⟩ := clampSample_mem s
  unfold quantize jsTrunc
  by_cases hc : clampSample s < 0
  · rw [if_pos hc, if_pos (by nlinarith)]
    have h1 : clampSample s * 32768 ≤ ((0 : ℤ) : ℚ) := by push_cast; nlinarith
    have := Int.ceil_le_ceil h1
    simp only [Int.ceil_intCast] at this
    omega
  · rw [if_neg hc]
    have h0 : (0 : ℚ) ≤ clampSample s * 32767 := by nlinarith [not_lt.mp hc]
    rw [if_neg (not_lt.mpr h0)]
    have h1 : clampSample s * 32767 ≤ ((32767 : ℤ) : ℚ) := by push_cast; nlinarith
    have := Int.floor_le_floor h1
    simp only [Int.floor_intCast] at this
    omega

/-- Writing any in-range 16-bit signed value through `setInt16` and reading
the two bytes back as a little-endian signed value is the identity. -/
theorem toSigned16_int16le (v : Int) (h1 : -32768 ≤ v) (h2 : v ≤ 32767) :
    toSigned16 (readU16le (int16le v) 0) = v := by
  unfold toSigned16 readU16le int16le uint16le
  simp only [show (0:Nat) + 1 = 1 from rfl, List.getD_cons_zero, List.getD_cons_succ]
  have hm : v % 65536 = if 0 ≤ v then v else v + 65536 := by
    split <;> omega
  split <;> omega

/-- Round trip for 16-bit little-endian writes, as used below. -/
theorem readU16le_uint16le (v : Nat) (h : v < 65536) :
    readU16le (uint16le v) 0 = v := by
  unfold readU16le uint16le
  simp only [show (0:Nat) + 1 = 1 from rfl, List.getD_cons_zero, List.getD_cons_succ]
  omega

/-- Round trip for 32-bit little-endian writes, as used below. -/
theorem readU32le_uint32le (v : Nat) (h : v < 4294967296) :
    readU32le (uint32le v) 0 = v := by
  unfold readU32le uint32le
  simp only [show (0:Nat) + 1 = 1 from rfl, show (1:Nat) + 1 = 2 from rfl,
    show (2:Nat) + 1 = 3 from rfl, List.getD_cons_zero, List.getD_cons_succ]
  omega

/-! ### Structure lemmas about the encoded byte list -/

/-- The bytes of the `data` sub-chunk body: each interleaved sample,
quantized and written little-endian. -/
def wavDataBytes (b : AudioBuffer) : List Nat :=
  ((interleave b).map (fun s => int16le (quantize s))).flatten

theorem wav_drop44 (b : AudioBuffer) :
    (audioBufferToWav b).drop 44 = wavDataBytes b := rfl

theorem getD_drop : ∀ (l : List α) (n k : Nat) (d : α),
    (l.drop n).getD k d = l.getD (n + k) d
  | _, 0, _, _ => by simp
  | [], _ + 1, _, _ => by simp
  | _ :: t, n + 1, k, d => by
    rw [List.drop_succ_cons, getD_drop t n k d, Nat.succ_add, List.getD_cons_succ]

theorem wavDataBytes_length (l : List ℚ) :
    ((l.map (fun s => int16le (quantize s))).flatten).length = l.length * 2 := by
  induction l with
  | nil => rfl
  | cons a t ih =>
    simp only [List.map_cons, List.flatten_cons, List.length_append, ih]
    show 2 + t.length * 2 = (t.length + 1) * 2
    ring

theorem interleave_length_mono (b : AudioBuffer) (h : b.numberOfChannels = 1) :
    (interleave b).length = (b.getChannelData 0).length := by
  unfold interleave
  rw [if_pos h]

theorem zip_pair_flatten_length (l r : List ℚ) (h : l.length = r.length) :
    ((l.zipWith (fun x y => [x, y]) r).flatten).length = 2 * l.length := by
  induction l generalizing r with
  | nil => simp
  | cons a t ih =>
    cases r with
    | nil => simp at h
    | cons b u =>
      simp only [List.zipWith_cons_cons, List.flatten_cons, List.length_append]
      rw [ih u (by simpa using h)]
      simp
      omega

theorem interleave_length_stereo (b : AudioBuffer) (h : b.numberOfChannels ≠ 1)
    (hlen : (b.getChannelData 0).length = (b.getChannelData 1).length) :
    (interleave b).length = 2 * (b.getChannelData 0).length := by
  unfold interleave
  rw [if_neg h]
  exact zip_pair_flatten_length _ _ hlen

theorem audioBufferToWav_length (b : AudioBuffer) :
    (audioBufferToWav b).length = 44 + (interleave b).length * 2 := by
  unfold audioBufferToWav
  simp only [List.length_append, wavDataBytes_length, writeString, uint16le, uint32le]
  simp [String.length]

/-- Index `2*i` of the flattened two-byte sample blocks picks the first
byte of block `i`, and index `2*i+1` the second. -/
theorem flatten_pair_getD (l : List ℚ) (i : Nat) (hi : i < l.length) :
    ((l.map (fun s => int16le (quantize s))).flatten).getD (2*i) 0
        = (int16le (quantize (l.getD i 0))).getD 0 0
      ∧ ((l.map (fun s => int16le (quantize s))).flatten).getD (2*i + 1) 0
        = (int16le (quantize (l.getD i 0))).getD 1 0 := by
  induction l generalizing i with
  | nil => simp at hi
  | cons a t ih =>
    cases i with
    | zero =>
      constructor <;>
        simp [int16le, uint16le, List.getD_cons_zero, List.getD_cons_succ]
    | succ j =>
      have hj : j < t.length := by simpa using hi
      have h2 : 2 * (j + 1) = 2 + 2 * j := by ring
      have h3 : 2 * (j + 1) + 1 = 2 + (2 * j + 1) := by ring
      have hlen : (int16le (quantize a)).length = 2 := rfl
      constructor
      · rw [h2]
        simp only [List.map_cons, List.flatten_cons]
        rw [List.getD_append_right _ _ _ _ (by rw [hlen]; omega)]
        rw [hlen]
        have he : 2 + 2 * j - 2 = 2 * j := by omega
        rw [he]
        simpa using (ih j hj).1
      · rw [h3]
        simp only [List.map_cons, List.flatten_cons]
        rw [List.getD_append_right _ _ _ _ (by rw [hlen]; omega)]
        rw [hlen]
        have he : 2 + (2 * j + 1) - 2 = 2 * j + 1 := by omega
        rw [he]
        simpa using (ih j hj).2

/-- Sample `i` of the data sub-chunk, read back as a signed little-endian
16-bit value, is the quantization of interleaved sample `i`. -/
theorem wav_sample_decode (b : AudioBuffer) (i : Nat)
    (hi : i < (interleave b).length) :
    toSigned16 (readU16le (audioBufferToWav b) (44 + 2 * i))
      = quantize ((interleave b).getD i 0) := by
  have h1 : (audioBufferToWav b).getD (44 + 2 * i) 0
      = (wavDataBytes b).getD (2 * i) 0 := by
    rw [← wav_drop44, getD_drop]
  have h2 : (audioBufferToWav b).getD (44 + 2 * i + 1) 0
      = (wavDataBytes b).getD (2 * i + 1) 0 := by
    rw [← wav_drop44, getD_drop, Nat.add_assoc]
  obtain ⟨hb0, hb1⟩ := flatten_pair_getD (interleave b) i hi
  unfold readU16le
  rw [h1, h2]
  unfold wavDataBytes
  rw [hb0, hb1]
  have hr : (int16le (quantize ((interleave b).getD i 0))).getD 0 0
      + 256 * (int16le (quantize ((interleave b).getD i 0))).getD 1 0
      = readU16le (int16le (quantize ((interleave b).getD i 0))) 0 := rfl
  rw [hr]
  exact toSigned16_int16le _ (quantize_lower _) (quantize_upper _)

/-- The §8 round-trip test buffer: samples `[0, 0.5, -0.5, 1, -1]`, one
channel, 8000 Hz. -/
def exampleBuffer : AudioBuffer :=
  ⟨1, 8000, [[0, 1/2, -(1/2), 1, -1]]⟩

/-- C1: For every input sample buffer, the WAV encoder writes each sample
`s` to the data sub-chunk as the 16-bit little-endian signed integer
obtained by clamping `s` to `[-1,1]`, scaling by 32768 if negative and
32767 if non-negative, then truncating; encoding `[0, 0.5, -0.5, 1, -1]`
at 1 channel / 8000 Hz yields a data sub-chunk decoding to
`[0, 16383, -16384, 32767, -32768]` (the claim's "16383 or 16384" is
resolved to 16383 because `setInt16` truncates `16383.5`). -/
theorem wav_data_quantization :
    (∀ (b : AudioBuffer) (i : Nat), i < (interleave b).length →
        toSigned16 (readU16le (audioBufferToWav b) (44 + 2 * i))
          = quantize ((interleave b).getD i 0))
    ∧ (List.range 5).map (fun i =>
        toSigned16 (readU16le (audioBufferToWav exampleBuffer) (44 + 2 * i)))
        = [0, 16383, -16384, 32767, -32768] := by
  have hlen : (interleave exampleBuffer).length = 5 := rfl
  refine ⟨fun b i hi => wav_sample_decode b i hi, ?_⟩
  have h0 := wav_sample_decode exampleBuffer 0 (by omega)
  have h1 := wav_sample_decode exampleBuffer 1 (by omega)
  have h2 := wav_sample_decode exampleBuffer 2 (by omega)
  have h3 := wav_sample_decode exampleBuffer 3 (by omega)
  have h4 := wav_sample_decode exampleBuffer 4 (by omega)
  rw [show List.range 5 = [0, 1, 2, 3, 4] from rfl]
  simp only [List.map_cons, List.map_nil]
  rw [h0, h1, h2, h3, h4]
  rw [show (interleave exampleBuffer).getD 0 0 = 0 from rfl,
    show (interleave exampleBuffer).getD 1 0 = 1/2 from rfl,
    show (interleave exampleBuffer).getD 2 0 = -(1/2) from rfl,
    show (interleave exampleBuffer).getD 3 0 = 1 from rfl,
    show (interleave exampleBuffer).getD 4 0 = -1 from rfl]
  rw [quantize_zero, quantize_half, quantize_neg_half, quantize_one,
    quantize_neg_one]

/-- Witness for C1 at a concrete sample index. -/
theorem wav_data_quantization_witness :
    2 < (interleave exampleBuffer).length
    ∧ toSigned16 (readU16le (audioBufferToWav exampleBuffer) (44 + 2 * 2))
        = quantize ((interleave exampleBuffer).getD 2 0) :=
  ⟨by rw [show (interleave exampleBuffer).length = 5 from rfl]; omega,
   wav_data_quantization.1 exampleBuffer 2
     (by rw [show (interleave exampleBuffer).length = 5 from rfl]; omega)⟩

/-- Reading a 16-bit field after dropping a prefix is reading it at the
corresponding offset. -/
theorem readU16le_drop (l : List Nat) (n : Nat) :
    readU16le (l.drop n) 0 = readU16le l n := by
  simp [readU16le, getD_drop]

/-- Reading a 32-bit field after dropping a prefix is reading it at the
corresponding offset. -/
theorem readU32le_drop (l : List Nat) (n : Nat) :
    readU32le (l.drop n) 0 = readU32le l n := by
  simp [readU32le, getD_drop]

/-- The encoder output written as one explicit byte list: the 44 header
bytes in source order followed by the data bytes.  (The source fills a
zero-initialised `ArrayBuffer` with these exact writes at consecutive
offsets.) -/
theorem audioBufferToWav_explicit (b : AudioBuffer) :
    audioBufferToWav b =
      82 :: 73 :: 70 :: 70
      :: (44 + (interleave b).length * 2 - 8) % 256
      :: (44 + (interleave b).length * 2 - 8) / 256 % 256
      :: (44 + (interleave b).length * 2 - 8) / 65536 % 256
      :: (44 + (interleave b).length * 2 - 8) / 16777216 % 256
      :: 87 :: 65 :: 86 :: 69
      :: 102 :: 109 :: 116 :: 32
      :: 16 :: 0 :: 0 :: 0
      :: 1 :: 0
      :: b.numberOfChannels % 256 :: b.numberOfChannels / 256 % 256
      :: b.sampleRate % 256
      :: b.sampleRate / 256 % 256
      :: b.sampleRate / 65536 % 256
      :: b.sampleRate / 16777216 % 256
      :: (b.sampleRate * b.numberOfChannels * 2) % 256
      :: (b.sampleRate * b.numberOfChannels * 2) / 256 % 256
      :: (b.sampleRate * b.numberOfChannels * 2) / 65536 % 256
      :: (b.sampleRate * b.numberOfChannels * 2) / 16777216 % 256
      :: (b.numberOfChannels * 2) % 256 :: (b.numberOfChannels * 2) / 256 % 256
      :: 16 :: 0
      :: 100 :: 97 :: 116 :: 97
      :: ((interleave b).length * 2) % 256
      :: ((interleave b).length * 2) / 256 % 256
      :: ((interleave b).length * 2) / 65536 % 256
      :: ((interleave b).length * 2) / 16777216 % 256
      :: wavDataBytes b := by
  show writeString "RIFF" ++ _ ++ _ ++ _ ++ _ ++ _ ++ _ ++ _ ++ _ ++ _ ++ _
      ++ _ ++ _ ++ _ = _
  rw [show writeString "RIFF" = [82, 73, 70, 70] from rfl,
    show writeString "WAVE" = [87, 65, 86, 69] from rfl,
    show writeString "fmt " = [102, 109, 116, 32] from rfl,
    show writeString "data" = [100, 97, 116, 97] from rfl]
  simp only [uint32le, uint16le, wavDataBytes, List.cons_append,
    List.nil_append, List.append_assoc]

/-- C2: For a buffer with 1 or 2 channels whose channels have equal
length, the encoder output is exactly `44 + n*c*2` bytes laid out as the
RIFF/fmt/data chunks with the stated field values, followed by the
interleaved quantized samples, and is a function of the input buffer
alone. -/
theorem wav_container_layout (b : AudioBuffer)
    (hc : b.numberOfChannels = 1 ∨ b.numberOfChannels = 2)
    (hn2 : b.numberOfChannels = 2 →
      (b.getChannelData 1).length = (b.getChannelData 0).length)
    (hr : b.sampleRate < 4294967296)
    (hbr : b.sampleRate * b.numberOfChannels * 2 < 4294967296)
    (hsz : 44 + (b.getChannelData 0).length * b.numberOfChannels * 2
      < 4294967296) :
    (audioBufferToWav b).length
        = 44 + (b.getChannelData 0).length * b.numberOfChannels * 2
    ∧ (audioBufferToWav b).take 4 = writeString "RIFF"
    ∧ readU32le (audioBufferToWav b) 4
        = 44 + (b.getChannelData 0).length * b.numberOfChannels * 2 - 8
    ∧ ((audioBufferToWav b).drop 8).take 4 = writeString "WAVE"
    ∧ ((audioBufferToWav b).drop 12).take 4 = writeString "fmt "
    ∧ readU32le (audioBufferToWav b) 16 = 16
    ∧ readU16le (audioBufferToWav b) 20 = 1
    ∧ readU16le (audioBufferToWav b) 22 = b.numberOfChannels
    ∧ readU32le (audioBufferToWav b) 24 = b.sampleRate
    ∧ readU32le (audioBufferToWav b) 28
        = b.sampleRate * b.numberOfChannels * 2
    ∧ readU16le (audioBufferToWav b) 32 = b.numberOfChannels * 2
    ∧ readU16le (audioBufferToWav b) 34 = 16
    ∧ ((audioBufferToWav b).drop 36).take 4 = writeString "data"
    ∧ readU32le (audioBufferToWav b) 40
        = (b.getChannelData 0).length * b.numberOfChannels * 2
    ∧ (audioBufferToWav b).drop 44
        = ((interleave b).map (fun s => int16le (quantize s))).flatten
    ∧ (∀ b2 : AudioBuffer, b2 = b → audioBufferToWav b2 = audioBufferToWav b)
    := by
  have hil : (interleave b).length
      = (b.getChannelData 0).length * b.numberOfChannels := by
    rcases hc with h | h
    · rw [interleave_length_mono b h, h, Nat.mul_one]
    · rw [interleave_length_stereo b (by rw [h]; omega) (hn2 h).symm, h]
      ring
  have hc16 : b.numberOfChannels < 65536 := by rcases hc with h | h <;> omega
  refine ⟨?_, ?_, ?_, ?_, ?_, ?_, ?_, ?_, ?_, ?_, ?_, ?_, ?_, ?_, ?_,
    fun b2 h => by rw [h]⟩
  · rw [audioBufferToWav_length, hil]
  · rw [audioBufferToWav_explicit]; rfl
  · have h4 : readU32le (audioBufferToWav b) 4
        = readU32le (uint32le (44 + (interleave b).length * 2 - 8)) 0 := by
      rw [audioBufferToWav_explicit]; rfl
    rw [h4, readU32le_uint32le _ (by rw [hil]; omega), hil]
  · rw [audioBufferToWav_explicit]; rfl
  · rw [audioBufferToWav_explicit]; rfl
  · have h16 : readU32le (audioBufferToWav b) 16
        = readU32le (uint32le 16) 0 := by
      rw [audioBufferToWav_explicit]; rfl
    rw [h16, readU32le_uint32le 16 (by omega)]
  · have h20 : readU16le (audioBufferToWav b) 20
        = readU16le (uint16le 1) 0 := by
      rw [audioBufferToWav_explicit]; rfl
    rw [h20, readU16le_uint16le 1 (by omega)]
  · have h22 : readU16le (audioBufferToWav b) 22
        = readU16le (uint16le b.numberOfChannels) 0 := by
      rw [audioBufferToWav_explicit]; rfl
    rw [h22, readU16le_uint16le _ hc16]
  · have h24 : readU32le (audioBufferToWav b) 24
        = readU32le (uint32le b.sampleRate) 0 := by
      rw [audioBufferToWav_explicit]; rfl
    rw [h24, readU32le_uint32le _ hr]
  · have h28 : readU32le (audioBufferToWav b) 28
        = readU32le (uint32le (b.sampleRate * b.numberOfChannels * 2)) 0 := by
      rw [audioBufferToWav_explicit]; rfl
    rw [h28, readU32le_uint32le _ hbr]
  · have h32 : readU16le (audioBufferToWav b) 32
        = readU16le (uint16le (b.numberOfChannels * 2)) 0 := by
      rw [audioBufferToWav_explicit]; rfl
    rw [h32, readU16le_uint16le _ (by omega)]
  · have h34 : readU16le (audioBufferToWav b) 34
        = readU16le (uint16le 16) 0 := by
      rw [audioBufferToWav_explicit]; rfl
    rw [h34, readU16le_uint16le 16 (by omega)]
  · rw [audioBufferToWav_explicit]; rfl
  · have h40 : readU32le (audioBufferToWav b) 40
        = readU32le (uint32le ((interleave b).length * 2)) 0 := by
      rw [audioBufferToWav_explicit]; rfl
    rw [h40, readU32le_uint32le _ (by rw [hil]; omega), hil]
  · rw [audioBufferToWav_explicit]; rfl

/-- Witness for C2 on the concrete mono test buffer. -/
theorem wav_container_layout_witness :
    (exampleBuffer.numberOfChannels = 1 ∨ exampleBuffer.numberOfChannels = 2)
    ∧ (exampleBuffer.numberOfChannels = 2 →
        (exampleBuffer.getChannelData 1).length
          = (exampleBuffer.getChannelData 0).length)
    ∧ exampleBuffer.sampleRate < 4294967296
    ∧ exampleBuffer.sampleRate * exampleBuffer.numberOfChannels * 2
        < 4294967296
    ∧ 44 + (exampleBuffer.getChannelData 0).length
        * exampleBuffer.numberOfChannels * 2 < 4294967296
    ∧ (audioBufferToWav exampleBuffer).length
        = 44 + (exampleBuffer.getChannelData 0).length
            * exampleBuffer.numberOfChannels * 2 :=
  ⟨by decide, by decide, by decide, by decide, by decide,
    (wav_container_layout exampleBuffer (by decide) (by decide) (by decide)
      (by decide) (by decide)).1⟩

/-! ## Clip objects and the Recorder module (`part_003`, `Recorder`) -/

/-- Duration of a decoded `AudioBuffer` in seconds: sample count over
sample rate. -/
def AudioBuffer.duration (b : AudioBuffer) : ℚ :=
  ((b.getChannelData 0).length : ℚ) / (b.sampleRate : ℚ)

/-- A clip object as constructed by the recorder's `onstop` handler:
`{ id, startTime, duration, audioBuffer }`.  The `id` field doubles as the
object's heap reference in this model (it is assigned once from
`nextClipId++` and never mutated), so it is not repeated here. -/
structure ClipObj where
  startTime : ℚ
  duration : ℚ
  audioBuffer : Option AudioBuffer
  deriving Repr, DecidableEq

/-- First binding for key `r` in an association list (JavaScript object
property read / `Array.find` by id). -/
def alistGet {α : Type} : List (Nat × α) → Nat → Option α
  | [], _ => none
  | (k, v) :: rest, r => if k = r then some v else alistGet rest r

/-- Update the first binding for key `r` in place. -/
def alistModify {α : Type} (f : α → α) : List (Nat × α) → Nat → List (Nat × α)
  | [], _ => []
  | (k, v) :: rest, r =>
    if k = r then (k, f v) :: rest else (k, v) :: alistModify f rest r

/-- JavaScript object property write: overwrite the binding if the key is
present, otherwise append it. -/
def alistSet {α : Type} : List (Nat × α) → Nat → α → List (Nat × α)
  | [], k, v => [(k, v)]
  | (k1, v1) :: rest, k, v =>
    if k1 = k then (k1, v) :: rest else (k1, v1) :: alistSet rest k v

/-- Recorder module state (`part_003` module-level variables).  `heap`
holds every clip object ever allocated, keyed by reference (= id); the
`clips` array holds references.  Objects stay in the heap after removal
from the array, exactly as JavaScript objects stay reachable through
previously captured references. -/
structure RecState where
  heap : List (Nat × ClipObj)
  clips : List Nat
  nextClipId : Nat
  isRecording : Bool
  recordStartTime : ℚ
  chunks : List (List Nat)
  deriving Repr, DecidableEq

/-- The recorder's initial state: no clips, `nextClipId = 1`, idle. -/
def initialRecorder : RecState :=
  ⟨[], [], 1, false, 0, []⟩

/-- Dereference a clip object. -/
def readClip (s : RecState) (r : Nat) : Option ClipObj :=
  alistGet s.heap r

/-- `startRecording(startTime)` once the microphone stream is available:
records the anchor, clears the chunk buffer and raises `isRecording`.
(When already recording, the source first runs `stopRecording()`, whose
only state effect—clearing `isRecording`—is overwritten here.) -/
def startRecordingBody (s : RecState) (startTime : ℚ) : RecState :=
  { s with recordStartTime := startTime, chunks := [], isRecording := true }

/-- `ondataavailable`: chunks with positive size are accumulated. -/
def dataAvailable (s : RecState) (chunk : List Nat) : RecState :=
  if chunk.length > 0 then { s with chunks := s.chunks ++ [chunk] } else s

/-- `stopRecording()`: stops the `MediaRecorder` (its `onstop` fires
afterwards, see `finalizeRecording`) and lowers `isRecording`. -/
def stopRecording (s : RecState) : RecState :=
  { s with isRecording := false }

/-- Outcome of the `onstop` handler, for stating the error-path claims. -/
inductive FinalizeResult where
  | noChunks
  | completed (id : Nat)
  | decodeFailed
  deriving Repr, DecidableEq

/-- The clip construction and push from the `onstop` handler:
`{ id: nextClipId++, startTime: recordStartTime, duration, audioBuffer }`
appended to `clips`. -/
def addClip (s : RecState) (buf : AudioBuffer) : RecState × Nat :=
  let clip : ClipObj := ⟨s.recordStartTime, buf.duration, some buf⟩
  ({ s with heap := s.heap ++ [(s.nextClipId, clip)],
            clips := s.clips ++ [s.nextClipId],
            nextClipId := s.nextClipId + 1 },
    s.nextClipId)

/-- The `onstop` handler (`part_003` lines 68–87): with zero chunks it
returns immediately; otherwise the blob is decoded by the external
`decodeAudioData` (outcome given by `decoded`); success pushes a clip, and
failure only logs, inserting nothing. -/
def finalizeRecording (s : RecState) (decoded : Option AudioBuffer) :
    RecState × FinalizeResult :=
  if s.chunks.length = 0 then (s, .noChunks)
  else
    match decoded with
    | some buf =>
      let out := addClip s buf
      ({ out.fst with isRecording := false }, .completed out.snd)
    | none => ({ s with isRecording := false }, .decodeFailed)

/-- `getAllClips()`: `clips.slice()` — a fresh array holding the same
object references. -/
def getAllClips (s : RecState) : List Nat :=
  s.clips

/-- `deleteClip(id)`: rebinds `clips` to a filtered array; the removed
object itself is untouched (and stays in the heap). -/
def deleteClip (s : RecState) (id : Nat) : RecState :=
  { s with clips := s.clips.filter (fun r => r != id) }

/-- `moveClip(id, newStart)`: finds the clip object in the current array
and mutates its `startTime` to `Math.max(0, newStart)` in place. -/
def moveClip (s : RecState) (id : Nat) (newStart : ℚ) : RecState :=
  if id ∈ s.clips then
    let upd := fun (c : ClipObj) => { c with startTime := jsMax 0 newStart }
    { s with heap := alistModify upd s.heap id }
  else s

/-! ## The AudioEngine module (`part_001`, `AudioEngine`) -/

/-- One entry of `activeClipSources`: a playing buffer source together
with its gain node's current value. -/
structure ActiveSource where
  clipId : Nat
  gainVal : ℚ
  deriving Repr, DecidableEq

/-- AudioEngine module state: whether `init()` created the audio context,
the `clipGains` map, and the currently sounding sources.  (The master
gain node is not modelled; no claim concerns it.) -/
structure EngineState where
  ctxInit : Bool
  clipGains : List (Nat × ℚ)
  active : List ActiveSource
  deriving Repr, DecidableEq

/-- Engine state before `init()`. -/
def initialEngine : EngineState :=
  ⟨false, [], []⟩

/-- `AudioEngine.init()`. -/
def engineInit (e : EngineState) : EngineState :=
  { e with ctxInit := true }

/-- `getClipGain(clipId)`: the stored gain, defaulting to 0.8. -/
def getClipGain (e : EngineState) (clipId : Nat) : ℚ :=
  (alistGet e.clipGains clipId).getD (4/5)

/-- An observable "playback started" event: which clip, from which offset,
at which volume. -/
structure PlayEvent where
  clipId : Nat
  offset : ℚ
  gain : ℚ
  deriving Repr, DecidableEq

/-- `_playClip(clip, offset)` (`part_001` lines 65–84): bails out without
an audio context or buffer; otherwise starts a source at the clip's
current gain (default 0.8) and registers it in `activeClipSources`. -/
def playClip (e : EngineState) (clipId : Nat) (c : ClipObj) (offset : ℚ) :
    EngineState × Option PlayEvent :=
  if e.ctxInit = false ∨ c.audioBuffer = none then (e, none)
  else
    let vol := getClipGain e clipId
    ({ e with active := e.active ++ [⟨clipId, vol⟩] },
      some ⟨clipId, offset, vol⟩)

/-- `stopAllClips()`. -/
def stopAllClips (e : EngineState) : EngineState :=
  { e with active := [] }

/-- The in-place gain-node update in `setClipVolume`: only the first
matching entry of `activeClipSources` (via `Array.find`) is touched. -/
def updateFirstActive : List ActiveSource → Nat → ℚ → List ActiveSource
  | [], _, _ => []
  | a :: rest, id, v =>
    if a.clipId = id then { a with gainVal := v } :: rest
    else a :: updateFirstActive rest id v

/-- `setClipVolume(clipId, vol)` (`part_001` lines 93–99): stores `vol`
in `clipGains` and, if the clip is currently sounding, sets the live gain
node to `vol`.  The source applies no clamping. -/
def setClipVolume (e : EngineState) (clipId : Nat) (vol : ℚ) : EngineState :=
  { e with clipGains := alistSet e.clipGains clipId vol,
           active := updateFirstActive e.active clipId vol }

/-! ## The clip scheduler (`part_001` lines 50–63) -/

/-- The closure state of `createClipScheduler`: the clip array captured at
creation and the `started` set. -/
structure Scheduler where
  clipsSnap : List Nat
  started : List Nat
  deriving Repr, DecidableEq

/-- `createClipScheduler(clips)`: captures the given clip array (the app
passes `Recorder.getAllClips()`) and a fresh empty `started` set. -/
def createClipScheduler (clips : List Nat) : Scheduler :=
  ⟨clips, []⟩

/-- The `forEach` loop of the scheduler's `checkTime` closure, threading
the `started` set and the engine state, and collecting start events.
Each clip object is dereferenced at call time. -/
def tickGo (rs : RecState) (t : ℚ) :
    List Nat → List Nat → EngineState → List Nat × EngineState × List PlayEvent
  | [], st, e => (st, e, [])
  | r :: rest, st, e =>
    match readClip rs r with
    | none => tickGo rs t rest st e
    | some c =>
      if t ≥ c.startTime ∧ t < c.startTime + c.duration ∧ r ∉ st then
        let st2 := st ++ [r]
        let pr := playClip e r c (t - c.startTime)
        let out := tickGo rs t rest st2 pr.fst
        (out.fst, out.snd.fst, pr.snd.toList ++ out.snd.snd)
      else tickGo rs t rest st e

/-- One call of the `checkTime` closure returned by
`createClipScheduler`. -/
def tick (rs : RecState) (sch : Scheduler) (e : EngineState) (t : ℚ) :
    Scheduler × EngineState × List PlayEvent :=
  let out := tickGo rs t sch.clipsSnap sch.started e
  (⟨sch.clipsSnap, out.fst⟩, out.snd.fst, out.snd.snd)

/-! ## Whole-system operations (for invariants over call sequences) -/

/-- Combined Recorder + AudioEngine state. -/
structure SysState where
  rc : RecState
  eng : EngineState
  deriving Repr, DecidableEq

/-- The externally invokable mutating operations on the combined state. -/
inductive SysOp where
  | startRec (t : ℚ)
  | chunk (c : List Nat)
  | stopRec
  | finalize (decoded : Option AudioBuffer)
  | deleteClip (id : Nat)
  | moveClip (id : Nat) (t : ℚ)
  | setGain (id : Nat) (g : ℚ)
  deriving Repr, DecidableEq

/-- Effect of one operation.  `setGain` (`AudioEngine.setClipVolume`)
never touches the Recorder's store. -/
def sysStep (s : SysState) : SysOp → SysState
  | .startRec t => ⟨startRecordingBody s.rc t, s.eng⟩
  | .chunk c => ⟨dataAvailable s.rc c, s.eng⟩
  | .stopRec => ⟨stopRecording s.rc, s.eng⟩
  | .finalize d => ⟨(finalizeRecording s.rc d).fst, s.eng⟩
  | .deleteClip id => ⟨deleteClip s.rc id, s.eng⟩
  | .moveClip id t => ⟨moveClip s.rc id t, s.eng⟩
  | .setGain id g => ⟨s.rc, setClipVolume s.eng id g⟩

/-- Run a sequence of operations from the page's startup state
(`AudioEngine.init()` is called during initialization). -/
def sysRun (ops : List SysOp) : SysState :=
  ops.foldl sysStep ⟨initialRecorder, engineInit initialEngine⟩

/-! ## The recordings export (`exporter.js`, `downloadRecordedAudio`) -/

/-- Failure of an export entry point. -/
inductive ExportError where
  | nothingToExport
  deriving Repr, DecidableEq

/-- `clips[0].audioBuffer.sampleRate` (guarded by the non-empty check). -/
def firstClipRate (rs : RecState) : Nat :=
  match (getAllClips rs).head? with
  | some r =>
    match readClip rs r with
    | some c =>
      match c.audioBuffer with
      | some buf => buf.sampleRate
      | none => 0
    | none => 0
  | none => 0

/-- `Math.round` on an exact rational. -/
def jsRound (q : ℚ) : Int :=
  ⌊q + 1/2⌋

/-- Add `gain * samples` into `out` starting at sample index `offset`,
dropping anything out of bounds. -/
def addClipSamples (g : ℚ) (offset : Int) (samples : List ℚ)
    (out : List ℚ) : List ℚ :=
  out.mapIdx (fun j x =>
    let k : Int := (j : Int) - offset
    if 0 ≤ k ∧ k < samples.length then x + g * samples.getD k.toNat 0 else x)

/-- Modelled from the spec: the `OfflineAudioContext` rendering backend is
an external collaborator (§4.4, §6 "Offline rendering backend"); per
§4.4 it produces a mono buffer of `ceil(duration * sampleRate)` samples in
which each clip's samples, scaled by its current gain, are summed in at
integer offset `round(startTime * sampleRate)`, truncated at the buffer
end. -/
def renderOffline (rs : RecState) (e : EngineState) (duration : ℚ) :
    AudioBuffer :=
  let rate := firstClipRate rs
  let total := (⌈duration * (rate : ℚ)⌉).toNat
  let mixed := (getAllClips rs).foldl (fun acc r =>
    match readClip rs r with
    | some c =>
      match c.audioBuffer with
      | some buf =>
        addClipSamples (getClipGain e r) (jsRound (c.startTime * (rate : ℚ)))
          (buf.getChannelData 0) acc
      | none => acc
    | none => acc) (List.replicate total 0)
  ⟨1, rate, [mixed]⟩

/-- `downloadRecordedAudio` (`exporter.js` lines 109–141): with no
recorded clips it alerts and returns without producing a file; otherwise
it renders the mix offline and emits the WAV bytes. -/
def downloadRecordedAudio (rs : RecState) (e : EngineState) (duration : ℚ) :
    Except ExportError (List Nat) :=
  if (getAllClips rs).length = 0 then .error .nothingToExport
  else .ok (audioBufferToWav (renderOffline rs e duration))

/-- C7: With an empty ClipStore (and no primary track — this export never
includes one) the recordings export fails with `NothingToExport` and
emits no bytes; an emitted file implies the store was non-empty. -/
theorem export_requires_material (rs : RecState) (e : EngineState) (d : ℚ) :
    (getAllClips rs = [] →
      downloadRecordedAudio rs e d = .error .nothingToExport)
    ∧ (∀ bytes, downloadRecordedAudio rs e d = .ok bytes →
        getAllClips rs ≠ []) := by
  constructor
  · intro h
    unfold downloadRecordedAudio
    rw [if_pos (by rw [h]; rfl)]
  · intro bytes h hne
    unfold downloadRecordedAudio at h
    rw [if_pos (by rw [hne]; rfl)] at h
    exact Except.noConfusion h

/-- Witness for C7 at the empty initial store. -/
theorem export_requires_material_witness :
    getAllClips initialRecorder = []
    ∧ downloadRecordedAudio initialRecorder (engineInit initialEngine) 10
        = .error .nothingToExport :=
  ⟨rfl,
    (export_requires_material initialRecorder (engineInit initialEngine)
      10).1 rfl⟩

/-- C8: Stopping a capture with zero accumulated chunks inserts nothing
and leaves the session idle; a decode failure yields `DecodeError`
(`decodeFailed`), returns to idle, and inserts no clip. -/
theorem capture_failure_paths (s : RecState) (d : Option AudioBuffer) :
    (s.chunks = [] →
      (finalizeRecording (stopRecording s) d).snd = .noChunks
      ∧ ((finalizeRecording (stopRecording s) d).fst).clips = s.clips
      ∧ ((finalizeRecording (stopRecording s) d).fst).heap = s.heap
      ∧ ((finalizeRecording (stopRecording s) d).fst).isRecording = false)
    ∧ (s.chunks ≠ [] →
      (finalizeRecording (stopRecording s) none).snd = .decodeFailed
      ∧ ((finalizeRecording (stopRecording s) none).fst).clips = s.clips
      ∧ ((finalizeRecording (stopRecording s) none).fst).heap = s.heap
      ∧ ((finalizeRecording (stopRecording s) none).fst).isRecording
          = false) := by
  constructor
  · intro h
    unfold finalizeRecording stopRecording
    simp [h]
  · intro h
    unfold finalizeRecording stopRecording
    simp [List.length_eq_zero, h]

/-- Witness for C8: an immediately stopped capture, and a failing decode
after one chunk. -/
theorem capture_failure_paths_witness :
    ((startRecordingBody initialRecorder 0).chunks = []
      ∧ (finalizeRecording (stopRecording (startRecordingBody initialRecorder 0))
          none).snd = .noChunks)
    ∧ ((dataAvailable (startRecordingBody initialRecorder 0) [7]).chunks ≠ []
      ∧ (finalizeRecording
          (stopRecording (dataAvailable (startRecordingBody initialRecorder 0) [7]))
          none).snd = .decodeFailed) :=
  ⟨⟨rfl,
    ((capture_failure_paths (startRecordingBody initialRecorder 0) none).1
      rfl).1⟩,
   ⟨by decide,
    ((capture_failure_paths (dataAvailable (startRecordingBody initialRecorder 0) [7])
        none).2 (by decide)).1⟩⟩

/-! ## Association-list lemmas -/

theorem alistGet_set_self {α : Type} (m : List (Nat × α)) (k : Nat) (v : α) :
    alistGet (alistSet m k v) k = some v := by
  induction m with
  | nil => simp [alistSet, alistGet]
  | cons p rest ih =>
    obtain ⟨k1, v1⟩ := p
    unfold alistSet
    by_cases h : k1 = k
    · rw [if_pos h]
      unfold alistGet
      rw [if_pos h]
    · rw [if_neg h]
      unfold alistGet
      rw [if_neg h]
      exact ih

theorem alistGet_set_ne {α : Type} (m : List (Nat × α)) (k k2 : Nat) (v : α)
    (h : k ≠ k2) : alistGet (alistSet m k v) k2 = alistGet m k2 := by
  induction m with
  | nil => simp [alistSet, alistGet, h]
  | cons p rest ih =>
    obtain ⟨k1, v1⟩ := p
    unfold alistSet
    by_cases h1 : k1 = k
    · rw [if_pos h1]
      unfold alistGet
      rw [if_neg (h1 ▸ h), if_neg (h1 ▸ h)]
    · rw [if_neg h1]
      unfold alistGet
      by_cases h2 : k1 = k2
      · rw [if_pos h2, if_pos h2]
      · rw [if_neg h2, if_neg h2]
        exact ih

theorem alistGet_modify_self {α : Type} (f : α → α) (m : List (Nat × α))
    (k : Nat) : alistGet (alistModify f m k) k = (alistGet m k).map f := by
  induction m with
  | nil => simp [alistModify, alistGet]
  | cons p rest ih =>
    obtain ⟨k1, v1⟩ := p
    unfold alistModify
    by_cases h : k1 = k
    · rw [if_pos h]
      unfold alistGet
      rw [if_pos h, if_pos h]
      rfl
    · rw [if_neg h]
      unfold alistGet
      rw [if_neg h, if_neg h]
      exact ih

theorem alistGet_modify_ne {α : Type} (f : α → α) (m : List (Nat × α))
    (k k2 : Nat) (h : k ≠ k2) :
    alistGet (alistModify f m k) k2 = alistGet m k2 := by
  induction m with
  | nil => simp [alistModify, alistGet]
  | cons p rest ih =>
    obtain ⟨k1, v1⟩ := p
    unfold alistModify
    by_cases h1 : k1 = k
    · rw [if_pos h1]
      unfold alistGet
      rw [if_neg (h1 ▸ h), if_neg (h1 ▸ h)]
    · rw [if_neg h1]
      unfold alistGet
      by_cases h2 : k1 = k2
      · rw [if_pos h2, if_pos h2]
      · rw [if_neg h2, if_neg h2]
        exact ih

theorem alistModify_keys {α : Type} (f : α → α) (m : List (Nat × α))
    (k : Nat) : (alistModify f m k).map Prod.fst = m.map Prod.fst := by
  induction m with
  | nil => rfl
  | cons p rest ih =>
    obtain ⟨k1, v1⟩ := p
    unfold alistModify
    by_cases h : k1 = k
    · rw [if_pos h]
      rfl
    · rw [if_neg h]
      simpa using ih

/-! ## `updateFirstActive` lemmas (for C5) -/

theorem updateFirstActive_clipIds (l : List ActiveSource) (id : Nat) (v : ℚ) :
    (updateFirstActive l id v).map ActiveSource.clipId
      = l.map ActiveSource.clipId := by
  induction l with
  | nil => rfl
  | cons a rest ih =>
    unfold updateFirstActive
    by_cases h : a.clipId = id
    · rw [if_pos h]
      rfl
    · rw [if_neg h]
      simpa using ih

theorem updateFirstActive_mem_ne (l : List ActiveSource) (id : Nat) (v : ℚ) :
    ∀ a ∈ updateFirstActive l id v, a.clipId ≠ id → a ∈ l := by
  induction l with
  | nil => simp [updateFirstActive]
  | cons b rest ih =>
    unfold updateFirstActive
    by_cases h : b.clipId = id
    · rw [if_pos h]
      intro a ha hne
      rcases List.mem_cons.mp ha with h1 | h1
      · exact absurd (h1 ▸ h) hne
      · exact List.mem_cons_of_mem _ h1
    · rw [if_neg h]
      intro a ha hne
      rcases List.mem_cons.mp ha with h1 | h1
      · exact h1 ▸ List.mem_cons_self _ _
      · exact List.mem_cons_of_mem _ (ih a h1 hne)

theorem updateFirstActive_hit (l : List ActiveSource) (id : Nat) (v : ℚ)
    (h : ∃ a ∈ l, a.clipId = id) :
    ∃ a ∈ updateFirstActive l id v, a.clipId = id ∧ a.gainVal = v := by
  induction l with
  | nil => simp at h
  | cons b rest ih =>
    unfold updateFirstActive
    by_cases hb : b.clipId = id
    · rw [if_pos hb]
      exact ⟨{ b with gainVal := v }, List.mem_cons_self _ _, hb, rfl⟩
    · rw [if_neg hb]
      obtain ⟨a, ha, hid⟩ := h
      rcases List.mem_cons.mp ha with h1 | h1
      · exact absurd (h1 ▸ hid) hb
      · obtain ⟨a2, ha2, h2⟩ := ih ⟨a, h1, hid⟩
        exact ⟨a2, List.mem_cons_of_mem _ ha2, h2⟩

/-! ## C5: `setClipVolume` stores the gain unclamped -/

/-- Counterexample to C5 as stated: `setClipVolume(1, 2)` stores 2, not
the clamp of 2 to `[0,1]` (which would be 1); the source applies no
clamping. -/
theorem setClipVolume_no_clamp_counterexample :
    getClipGain (setClipVolume (engineInit initialEngine) 1 2) 1 = 2
    ∧ (2 : ℚ) ≠ 1 := by
  constructor
  · rfl
  · norm_num

/-- C5 (amended): `setGain(id, g)` stores `g` exactly as given — with no
clamping — as the clip's gain, and if the clip is currently sounding it
updates the first matching live source's volume in place to `g` without
restarting playback (the set of sounding sources and their order is
unchanged). -/
theorem setClipVolume_stores_raw (e : EngineState) (id : Nat) (g : ℚ) :
    getClipGain (setClipVolume e id g) id = g
    ∧ (setClipVolume e id g).active.map ActiveSource.clipId
        = e.active.map ActiveSource.clipId
    ∧ (∀ a ∈ (setClipVolume e id g).active, a.clipId ≠ id → a ∈ e.active)
    ∧ ((∃ a ∈ e.active, a.clipId = id) →
        ∃ a ∈ (setClipVolume e id g).active, a.clipId = id ∧ a.gainVal = g)
    ∧ (setClipVolume e id g).ctxInit = e.ctxInit := by
  refine ⟨?_, ?_, ?_, ?_, rfl⟩
  · unfold getClipGain setClipVolume
    rw [alistGet_set_self]
    rfl
  · exact updateFirstActive_clipIds e.active id g
  · exact updateFirstActive_mem_ne e.active id g
  · exact updateFirstActive_hit e.active id g

/-- A concrete engine state with clip 1 sounding, for the C5 witness. -/
def soundingEngine : EngineState :=
  ⟨true, [], [⟨1, 4/5⟩]⟩

/-- Witness for amended C5: with clip 1 sounding, `setClipVolume(1, 2)`
stores 2 and the live source's volume becomes 2. -/
theorem setClipVolume_stores_raw_witness :
    (∃ a ∈ soundingEngine.active, a.clipId = 1)
    ∧ getClipGain (setClipVolume soundingEngine 1 2) 1 = 2
    ∧ (∃ a ∈ (setClipVolume soundingEngine 1 2).active,
        a.clipId = 1 ∧ a.gainVal = 2) :=
  ⟨⟨⟨1, 4/5⟩, List.mem_cons_self _ _, rfl⟩,
   (setClipVolume_stores_raw soundingEngine 1 2).1,
   (setClipVolume_stores_raw soundingEngine 1 2).2.2.2.1
     ⟨⟨1, 4/5⟩, List.mem_cons_self _ _, rfl⟩⟩

/-! ## C10: default gain and gain persistence -/

/-- Engine gains are untouched by every operation other than `setGain` on
the same id. -/
theorem sysStep_gains (s : SysState) (op : SysOp) (x : Nat)
    (h : ∀ g, op ≠ SysOp.setGain x g) :
    alistGet (sysStep s op).eng.clipGains x = alistGet s.eng.clipGains x := by
  cases op with
  | setGain id g =>
    show alistGet (alistSet s.eng.clipGains id g) x = _
    have hx : id ≠ x := fun he => h g (by rw [he])
    exact alistGet_set_ne _ _ _ _ hx
  | startRec t => rfl
  | chunk c => rfl
  | stopRec => rfl
  | finalize d => rfl
  | deleteClip id => rfl
  | moveClip id t => rfl

theorem sysRun_gains_none (ops : List SysOp) (x : Nat)
    (h : ∀ g, SysOp.setGain x g ∉ ops) :
    alistGet (sysRun ops).eng.clipGains x = none := by
  suffices hgen : ∀ (l : List SysOp) (s : SysState),
      alistGet s.eng.clipGains x = none → (∀ g, SysOp.setGain x g ∉ l) →
      alistGet (l.foldl sysStep s).eng.clipGains x = none by
    exact hgen ops ⟨initialRecorder, engineInit initialEngine⟩ rfl h
  intro l
  induction l with
  | nil => intro s hs _; exact hs
  | cons op rest ih =>
    intro s hs hl
    have hop : ∀ g, op ≠ SysOp.setGain x g := by
      intro g he
      exact hl g (he ▸ List.mem_cons_self _ _)
    have hstep := sysStep_gains s op x hop
    exact ih (sysStep s op) (hstep.trans hs)
      (fun g hm => hl g (List.mem_cons_of_mem _ hm))

/-- C10: For every clip id on which `setClipVolume` was never called —
including ids absent from or deleted from the store — `getClipGain`
returns the default 0.8 and `_playClip` starts playback at gain 0.8; a
stored gain survives `deleteClip`, which never touches the gain map. -/
theorem default_gain_and_persistence :
    (∀ (ops : List SysOp) (x : Nat), (∀ g, SysOp.setGain x g ∉ ops) →
      getClipGain (sysRun ops).eng x = 4/5)
    ∧ (∀ (e : EngineState) (x : Nat) (c : ClipObj) (off : ℚ) (e2 : EngineState)
        (ev : PlayEvent), playClip e x c off = (e2, some ev) →
          ev.gain = getClipGain e x)
    ∧ (∀ (s : SysState) (id x : Nat),
        getClipGain (sysStep s (SysOp.deleteClip id)).eng x
          = getClipGain s.eng x) := by
  refine ⟨?_, ?_, fun s id x => rfl⟩
  · intro ops x h
    unfold getClipGain
    rw [sysRun_gains_none ops x h]
    rfl
  · intro e x c off e2 ev h
    unfold playClip at h
    split at h
    · exact Option.noConfusion (congrArg Prod.snd h)
    · have := congrArg Prod.snd h
      simp only at this
      rw [← Option.some_inj.mp this]

/-- Witness for C10: after a capture-and-delete run without any
`setClipVolume` call on id 1, `getClipGain 1` is 0.8, and a play of a
buffered clip emits that gain. -/
theorem default_gain_and_persistence_witness :
    (∀ g, SysOp.setGain 1 g ∉ [SysOp.deleteClip 1])
    ∧ getClipGain (sysRun [SysOp.deleteClip 1]).eng 1 = 4/5
    ∧ playClip (engineInit initialEngine) 1 ⟨0, 1, some exampleBuffer⟩ 0
        = (⟨true, [], [⟨1, 4/5⟩]⟩, some ⟨1, 0, 4/5⟩)
    ∧ (4/5 : ℚ)
        = getClipGain (engineInit initialEngine) 1 :=
  ⟨fun g h => by simp at h,
   default_gain_and_persistence.1 [SysOp.deleteClip 1] 1
     (fun g h => by simp at h),
   rfl,
   default_gain_and_persistence.2.1 (engineInit initialEngine) 1
     ⟨0, 1, some exampleBuffer⟩ 0 ⟨true, [], [⟨1, 4/5⟩]⟩ ⟨1, 0, 4/5⟩ rfl⟩

/-! ## C4: snapshots are shallow copies -/

/-- A minimal decoded buffer for concrete scenarios. -/
def demoBuf : AudioBuffer :=
  ⟨1, 8000, [[1/2]]⟩

/-- A store holding one clip (id 1, startTime 0), produced by a complete
capture run. -/
def oneClipStore : RecState :=
  (finalizeRecording
    (stopRecording (dataAvailable (startRecordingBody initialRecorder 0) [7]))
    (some demoBuf)).fst

/-- Counterexample to C4 as stated: `getAllClips` copies only the array
(`clips.slice()`), not the clip objects; `moveClip` mutates the object in
place, so a previously taken snapshot observes the new `startTime`. -/
theorem snapshot_observes_move_counterexample :
    getAllClips oneClipStore = [1]
    ∧ (readClip oneClipStore 1).map ClipObj.startTime = some 0
    ∧ (readClip (moveClip oneClipStore 1 5) 1).map ClipObj.startTime = some 5
    ∧ (5 : ℚ) ≠ 0 := by
  refine ⟨rfl, rfl, ?_, by norm_num⟩
  show some (jsMax 0 5) = some 5
  unfold jsMax
  norm_num

/-- C4 (amended): through a previously returned snapshot, `remove` and
`setGain` are unobservable, and each entry's id, duration and samples
are immutable; but `setStartTime`/`moveClip` mutates the clip object in
place, so the moved entry's `startTime` read through the snapshot changes
to the clamped new value.  (The snapshot array itself — its length and
membership — is a fresh array and never mutated.) -/
theorem snapshot_shallow_semantics (s : RecState) (e : EngineState)
    (snap : List Nat) (id : Nat) (t g : ℚ) :
    (∀ r ∈ snap, readClip (deleteClip s id) r = readClip s r)
    ∧ (∀ r ∈ snap,
        readClip (sysStep ⟨s, e⟩ (SysOp.setGain id g)).rc r = readClip s r)
    ∧ (∀ r ∈ snap,
        (readClip (moveClip s id t) r).map (fun c => (c.duration, c.audioBuffer))
          = (readClip s r).map (fun c => (c.duration, c.audioBuffer)))
    ∧ (∀ r ∈ snap, r ≠ id → readClip (moveClip s id t) r = readClip s r)
    ∧ (id ∈ s.clips → readClip s id ≠ none →
        (readClip (moveClip s id t) id).map ClipObj.startTime
          = some (jsMax 0 t))
    ∧ getAllClips (moveClip s id t) = getAllClips s := by
  have hmove : ∀ r : Nat, readClip (moveClip s id t) r
      = if id ∈ s.clips then
          alistGet (alistModify
            (fun c => { c with startTime := jsMax 0 t }) s.heap id) r
        else readClip s r := by
    intro r
    unfold moveClip
    split
    · rfl
    · rfl
  refine ⟨fun r _ => rfl, fun r _ => rfl, ?_, ?_, ?_, ?_⟩
  · intro r _
    rw [hmove]
    split
    · by_cases hr : id = r
      · subst hr
        rw [alistGet_modify_self]
        unfold readClip
        cases alistGet s.heap id <;> rfl
      · rw [alistGet_modify_ne _ _ _ _ hr]
        rfl
    · rfl
  · intro r _ hr
    rw [hmove]
    split
    · rw [alistGet_modify_ne _ _ _ _ (fun he => hr he.symm)]
      rfl
    · rfl
  · intro hin hsome
    rw [hmove, if_pos hin, alistGet_modify_self]
    unfold readClip at hsome
    cases h : alistGet s.heap id with
    | none => exact absurd h hsome
    | some c => rfl
  · unfold getAllClips moveClip
    split <;> rfl

/-- Witness for amended C4 on the one-clip store. -/
theorem snapshot_shallow_semantics_witness :
    (1 ∈ getAllClips oneClipStore)
    ∧ readClip (deleteClip oneClipStore 1) 1 = readClip oneClipStore 1
    ∧ (readClip (moveClip oneClipStore 1 5) 1).map
        (fun c => (c.duration, c.audioBuffer))
        = (readClip oneClipStore 1).map (fun c => (c.duration, c.audioBuffer))
    ∧ (readClip (moveClip oneClipStore 1 5) 1).map ClipObj.startTime
        = some (jsMax 0 5) :=
  ⟨by decide,
   (snapshot_shallow_semantics oneClipStore initialEngine
     (getAllClips oneClipStore) 1 5 0).1 1 (by decide),
   (snapshot_shallow_semantics oneClipStore initialEngine
     (getAllClips oneClipStore) 1 5 0).2.2.1 1 (by decide),
   (snapshot_shallow_semantics oneClipStore initialEngine
     (getAllClips oneClipStore) 1 5 0).2.2.2.2.1 (by decide)
     (by decide)⟩

/-! ## C6: id uniqueness and monotone assignment -/

/-- The ids of all clip objects ever created by successful captures: the
heap gains exactly one entry per successful `add` (keyed by the id the add
returned) and entries are never removed or rekeyed. -/
def heapKeys (s : RecState) : List Nat :=
  s.heap.map Prod.fst

/-- The store invariant: the array refers only to allocated clips, holds
no duplicates, ids were assigned in strictly increasing order, and every
assigned id is below the next one to be assigned. -/
def RecInv (s : RecState) : Prop :=
  (∀ r ∈ s.clips, r ∈ heapKeys s)
  ∧ s.clips.Nodup
  ∧ (heapKeys s).Chain' (· < ·)
  ∧ ∀ k ∈ heapKeys s, k < s.nextClipId

theorem recInv_initial : RecInv initialRecorder := by
  refine ⟨?_, ?_, ?_, ?_⟩ <;> simp [initialRecorder, heapKeys]

theorem recInv_step (s : SysState) (op : SysOp) (h : RecInv s.rc) :
    RecInv (sysStep s op).rc := by
  obtain ⟨hsub, hnd, hch, hlt⟩ := h
  cases op with
  | startRec t => exact ⟨hsub, hnd, hch, hlt⟩
  | chunk c =>
    show RecInv (dataAvailable s.rc c)
    unfold dataAvailable
    split
    · exact ⟨hsub, hnd, hch, hlt⟩
    · exact ⟨hsub, hnd, hch, hlt⟩
  | stopRec => exact ⟨hsub, hnd, hch, hlt⟩
  | setGain id g => exact ⟨hsub, hnd, hch, hlt⟩
  | deleteClip id =>
    show RecInv (deleteClip s.rc id)
    refine ⟨?_, List.Nodup.filter _ hnd, hch, hlt⟩
    intro r hr
    exact hsub r (List.mem_of_mem_filter hr)
  | moveClip id t =>
    show RecInv (moveClip s.rc id t)
    unfold moveClip
    split
    · show RecInv _
      unfold RecInv heapKeys
      rw [alistModify_keys]
      exact ⟨hsub, hnd, hch, hlt⟩
    · exact ⟨hsub, hnd, hch, hlt⟩
  | finalize d =>
    show RecInv (finalizeRecording s.rc d).fst
    unfold finalizeRecording
    split
    · exact ⟨hsub, hnd, hch, hlt⟩
    · match d with
      | none => exact ⟨hsub, hnd, hch, hlt⟩
      | some buf =>
        have hfresh : s.rc.nextClipId ∉ s.rc.clips := by
          intro hin
          exact absurd (hlt _ (hsub _ hin)) (lt_irrefl _)
        constructor
        · intro r hr
          unfold heapKeys addClip
          simp only [List.map_append, List.map_cons, List.map_nil]
          rcases List.mem_append.mp hr with h1 | h1
          · exact List.mem_append.mpr (Or.inl (hsub r h1))
          · exact List.mem_append.mpr (Or.inr h1)
        constructor
        · show (s.rc.clips ++ [s.rc.nextClipId]).Nodup
          rw [List.nodup_append]
          exact ⟨hnd, List.nodup_singleton _,
            by simpa [List.disjoint_right] using hfresh⟩
        constructor
        · show ((s.rc.heap ++ [(s.rc.nextClipId, _)]).map Prod.fst).Chain' (· < ·)
          rw [List.map_append, List.chain'_append]
          refine ⟨hch, List.chain'_singleton _, ?_⟩
          intro x hx y hy
          simp only [List.map_cons, List.map_nil, List.head?_cons,
            Option.mem_def, Option.some_inj] at hy
          subst hy
          exact hlt x (List.mem_of_mem_getLast? hx)
        · intro k hk
          show k < s.rc.nextClipId + 1
          unfold heapKeys addClip at hk
          simp only [List.map_append, List.map_cons, List.map_nil] at hk
          rcases List.mem_append.mp hk with h1 | h1
          · exact Nat.lt_succ_of_lt (hlt k h1)
          · simp only [List.mem_singleton] at h1
            omega

theorem recInv_run (ops : List SysOp) : RecInv (sysRun ops).rc := by
  suffices hgen : ∀ (l : List SysOp) (s : SysState), RecInv s.rc →
      RecInv (l.foldl sysStep s).rc by
    exact hgen ops _ recInv_initial
  intro l
  induction l with
  | nil => exact fun s hs => hs
  | cons op rest ih => exact fun s hs => ih _ (recInv_step s op hs)

/-- C6: After any sequence of operations, `list()` holds no duplicate id
and no id outside those assigned by prior successful adds (`heapKeys`
records exactly one entry per successful add, never removed); ids are
assigned in strictly increasing order and, being all below `nextClipId`,
are never reused even after deletion. -/
theorem clip_store_id_invariants (ops : List SysOp) :
    (getAllClips (sysRun ops).rc).Nodup
    ∧ (∀ id ∈ getAllClips (sysRun ops).rc, id ∈ heapKeys (sysRun ops).rc)
    ∧ (heapKeys (sysRun ops).rc).Chain' (· < ·)
    ∧ (∀ k ∈ heapKeys (sysRun ops).rc, k < (sysRun ops).rc.nextClipId) := by
  obtain ⟨hsub, hnd, hch, hlt⟩ := recInv_run ops
  exact ⟨hnd, hsub, hch, hlt⟩

/-! ## Scheduler lemmas (for C3 and C9) -/

/-- A sequence of `checkTime` calls within one playback run (no reset):
threads the scheduler and engine states, collecting all start events. -/
def runTicks (rs : RecState) (sch : Scheduler) (e : EngineState) :
    List ℚ → Scheduler × EngineState × List PlayEvent
  | [] => (sch, e, [])
  | t :: ts =>
    let o1 := tick rs sch e t
    let rest := runTicks rs o1.fst o1.snd.fst ts
    (rest.fst, rest.snd.fst, o1.snd.snd ++ rest.snd.snd)

theorem playClip_event_ids (e : EngineState) (id : Nat) (c : ClipObj)
    (off : ℚ) : ∀ ev ∈ (playClip e id c off).snd.toList, ev.clipId = id := by
  unfold playClip
  split
  · simp
  · simp

theorem playClip_gains (e : EngineState) (id : Nat) (c : ClipObj) (off : ℚ) :
    (playClip e id c off).fst.clipGains = e.clipGains
    ∧ (playClip e id c off).fst.ctxInit = e.ctxInit := by
  unfold playClip
  split
  · exact ⟨rfl, rfl⟩
  · exact ⟨rfl, rfl⟩

/-- Started-set monotonicity, freshness of events, and the per-tick
at-most-once property of the scheduler loop. -/
theorem tickGo_spec (rs : RecState) (t : ℚ) (l : List Nat) :
    ∀ (st : List Nat) (e : EngineState),
      (∀ x ∈ st, x ∈ (tickGo rs t l st e).fst)
      ∧ (∀ ev ∈ (tickGo rs t l st e).snd.snd,
          ev.clipId ∉ st ∧ ev.clipId ∈ (tickGo rs t l st e).fst)
      ∧ ∀ id : Nat,
          ((tickGo rs t l st e).snd.snd.map PlayEvent.clipId).count id ≤ 1 := by
  induction l with
  | nil =>
    intro st e
    refine ⟨fun x hx => ?_, fun ev hev => ?_, fun id => ?_⟩
    · simpa [tickGo] using hx
    · simp [tickGo] at hev
    · simp [tickGo]
  | cons r rest ih =>
    intro st e
    cases hrc : readClip rs r with
    | none =>
      simp only [tickGo, hrc]
      exact ih st e
    | some c =>
      simp only [tickGo, hrc]
      split
      · rename_i hcond
        obtain ⟨h1, h2, h3⟩ := hcond
        obtain ⟨ihmono, ihfresh, ihcount⟩ :=
          ih (st ++ [r]) (playClip e r c (t - c.startTime)).fst
        refine ⟨fun x hx => ?_, fun ev hev => ?_, fun id => ?_⟩
        · exact ihmono x (List.mem_append.mpr (Or.inl hx))
        · rcases List.mem_append.mp hev with hl | hl
          · have hid := playClip_event_ids e r c (t - c.startTime) ev hl
            rw [hid]
            exact ⟨h3, ihmono r (List.mem_append.mpr (Or.inr (by simp)))⟩
          · obtain ⟨hnot, hin⟩ := ihfresh ev hl
            exact ⟨fun hst => hnot (List.mem_append.mpr (Or.inl hst)), hin⟩
        · rw [List.map_append, List.count_append]
          by_cases hid : id = r
          · subst hid
            have hz : (((tickGo rs t rest (st ++ [id])
                (playClip e id c (t - c.startTime)).fst).snd.snd).map
                  PlayEvent.clipId).count id = 0 := by
              rw [List.count_eq_zero]
              intro hmem
              obtain ⟨ev, hev, hevid⟩ := List.mem_map.mp hmem
              exact (ihfresh ev hev).1 (hevid ▸ List.mem_append.mpr
                (Or.inr (by simp)))
            rw [hz]
            have hle : ((playClip e id c (t - c.startTime)).snd.toList.map
                PlayEvent.clipId).count id ≤ 1 := by
              unfold playClip
              split
              · simp
              · simp
            omega
          · have hz : (((playClip e r c (t - c.startTime)).snd.toList).map
                PlayEvent.clipId).count id = 0 := by
              rw [List.count_eq_zero]
              intro hmem
              obtain ⟨ev, hev, hevid⟩ := List.mem_map.mp hmem
              refine hid ?_
              rw [← hevid]
              exact playClip_event_ids e r c (t - c.startTime) ev hev
            rw [hz]
            simpa using ihcount id
      · exact ih st e

/-- Across a whole run of ticks: the started set only grows, every event
is for a clip not yet started, and no clip id is started more than
once. -/
theorem runTicks_spec (rs : RecState) (ts : List ℚ) :
    ∀ (sch : Scheduler) (e : EngineState),
      (∀ x ∈ sch.started, x ∈ (runTicks rs sch e ts).fst.started)
      ∧ (∀ ev ∈ (runTicks rs sch e ts).snd.snd,
          ev.clipId ∉ sch.started
          ∧ ev.clipId ∈ (runTicks rs sch e ts).fst.started)
      ∧ ∀ id : Nat,
          ((runTicks rs sch e ts).snd.snd.map PlayEvent.clipId).count id
            ≤ 1 := by
  induction ts with
  | nil =>
    intro sch e
    refine ⟨fun x hx => by simpa [runTicks] using hx,
      fun ev hev => by simp [runTicks] at hev,
      fun id => by simp [runTicks]⟩
  | cons t ts2 ih =>
    intro sch e
    obtain ⟨m1, f1, c1⟩ := tickGo_spec rs t sch.clipsSnap sch.started e
    obtain ⟨m2, f2, c2⟩ := ih (tick rs sch e t).fst (tick rs sch e t).snd.fst
    have hsted : (tick rs sch e t).fst.started
        = (tickGo rs t sch.clipsSnap sch.started e).fst := rfl
    have hev1 : (tick rs sch e t).snd.snd
        = (tickGo rs t sch.clipsSnap sch.started e).snd.snd := rfl
    refine ⟨fun x hx => ?_, fun ev hev => ?_, fun id => ?_⟩
    · show x ∈ ((runTicks rs (tick rs sch e t).fst
        (tick rs sch e t).snd.fst ts2).fst).started
      exact m2 x (hsted ▸ m1 x hx)
    · have hev2 : ev ∈ (tick rs sch e t).snd.snd
          ++ (runTicks rs (tick rs sch e t).fst
              (tick rs sch e t).snd.fst ts2).snd.snd := hev
      rcases List.mem_append.mp hev2 with hl | hl
      · obtain ⟨hnot, hin⟩ := f1 ev (hev1 ▸ hl)
        exact ⟨hnot, m2 ev.clipId (hsted ▸ hin)⟩
      · obtain ⟨hnot, hin⟩ := f2 ev hl
        refine ⟨fun hst => hnot (hsted ▸ m1 ev.clipId hst), hin⟩
    · show ((((tick rs sch e t).snd.snd
          ++ (runTicks rs (tick rs sch e t).fst
              (tick rs sch e t).snd.fst ts2).snd.snd).map
            PlayEvent.clipId).count id) ≤ 1
      rw [List.map_append, List.count_append]
      by_cases hin : id ∈ (tick rs sch e t).snd.snd.map PlayEvent.clipId
      · have hz : ((runTicks rs (tick rs sch e t).fst
            (tick rs sch e t).snd.fst ts2).snd.snd.map
              PlayEvent.clipId).count id = 0 := by
          rw [List.count_eq_zero]
          intro hmem
          obtain ⟨ev, hev, hevid⟩ := List.mem_map.mp hmem
          obtain ⟨ev1, hev1m, hev1id⟩ := List.mem_map.mp hin
          obtain ⟨_, hin1⟩ := f1 ev1 (hev1 ▸ hev1m)
          exact (f2 ev hev).1 (hevid ▸ (hsted ▸ (hev1id ▸ hin1)))
        rw [hz]
        have := c1 id
        rw [← hev1] at this
        omega
      · have hz : ((tick rs sch e t).snd.snd.map PlayEvent.clipId).count id
            = 0 := List.count_eq_zero.mpr hin
        rw [hz]
        simpa using c2 id

/-- The trigger rule a tick applies to clip reference `r`, given the
`started` set and the gain map in force at that moment: it fires exactly
when the time is inside the clip's current window, the clip has not
started yet, and the clip has a decoded buffer, playing from offset
`t - startTime` at the clip's current gain. -/
def triggerRule (rs : RecState) (e : EngineState) (t : ℚ) (st : List Nat)
    (r : Nat) : Option PlayEvent :=
  match readClip rs r with
  | some c =>
    if c.startTime ≤ t ∧ t < c.startTime + c.duration ∧ r ∉ st
        ∧ c.audioBuffer ≠ none
    then some ⟨r, t - c.startTime, getClipGain e r⟩ else none
  | none => none

/-- With a duplicate-free snapshot and an initialised audio context, one
scheduler pass emits exactly the events of `triggerRule` applied to each
captured reference in order. -/
theorem tickGo_events_char (rs : RecState) (t : ℚ) (l : List Nat) :
    ∀ (st : List Nat) (e : EngineState), l.Nodup → e.ctxInit = true →
      (tickGo rs t l st e).snd.snd
        = l.filterMap (triggerRule rs e t st) := by
  induction l with
  | nil => intro st e _ _; simp [tickGo]
  | cons r rest ih =>
    intro st e hnd hctx
    obtain ⟨hr, hndr⟩ := List.nodup_cons.mp hnd
    cases hrc : readClip rs r with
    | none =>
      simp only [tickGo, hrc]
      rw [ih st e hndr hctx, List.filterMap_cons]
      simp [triggerRule, hrc]
    | some c =>
      simp only [tickGo, hrc]
      split
      · rename_i hcond
        obtain ⟨h1, h2, h3⟩ := hcond
        have hcongr : ∀ x ∈ rest, triggerRule rs e t (st ++ [r]) x
            = triggerRule rs e t st x := by
          intro x hx
          have hxr : x ≠ r := fun he => hr (he ▸ hx)
          unfold triggerRule
          cases readClip rs x with
          | none => rfl
          | some cx =>
            have hmb : (x ∉ st ++ [r]) ↔ (x ∉ st) := by
              simp [List.mem_append, hxr]
            simp only [hmb]
        cases hbuf : c.audioBuffer with
        | none =>
          have hpr : playClip e r c (t - c.startTime) = (e, none) := by
            unfold playClip
            rw [if_pos (Or.inr hbuf)]
          rw [hpr]
          show (tickGo rs t rest (st ++ [r]) e).snd.snd = _
          rw [ih (st ++ [r]) e hndr hctx, List.filterMap_congr hcongr,
            List.filterMap_cons]
          have hnone : triggerRule rs e t st r = none := by
            simp only [triggerRule, hrc]
            rw [if_neg]
            intro hfull
            exact hfull.2.2.2 hbuf
          rw [hnone]
        | some buf =>
          have hpr : playClip e r c (t - c.startTime)
              = ({ e with active := e.active ++ [⟨r, getClipGain e r⟩] },
                 some ⟨r, t - c.startTime, getClipGain e r⟩) := by
            unfold playClip
            rw [if_neg]
            intro hor
            rcases hor with h | h
            · rw [hctx] at h
              exact Bool.noConfusion h
            · rw [hbuf] at h
              exact Option.noConfusion h
          rw [hpr]
          have hctx2 : ({ e with
              active := e.active ++ [⟨r, getClipGain e r⟩] } :
                EngineState).ctxInit = true := hctx
          show (some ⟨r, t - c.startTime, getClipGain e r⟩ :
              Option PlayEvent).toList
              ++ (tickGo rs t rest (st ++ [r])
                  { e with active := e.active ++ [⟨r, getClipGain e r⟩] }).snd.snd
              = _
          rw [ih (st ++ [r]) _ hndr hctx2]
          have hsame : ∀ x ∈ rest,
              triggerRule rs
                { e with active := e.active ++ [⟨r, getClipGain e r⟩] } t
                (st ++ [r]) x
              = triggerRule rs e t st x := by
            intro x hx
            have h2x : triggerRule rs
                { e with active := e.active ++ [⟨r, getClipGain e r⟩] } t
                (st ++ [r]) x
                = triggerRule rs e t (st ++ [r]) x := rfl
            rw [h2x, hcongr x hx]
          rw [List.filterMap_congr hsame, List.filterMap_cons]
          have hsome : triggerRule rs e t st r
              = some ⟨r, t - c.startTime, getClipGain e r⟩ := by
            simp only [triggerRule, hrc]
            rw [if_pos]
            exact ⟨h1, h2, h3, by rw [hbuf]; exact fun h => Option.noConfusion h⟩
          rw [hsome]
          rfl
      · rename_i hcond
        rw [ih st e hndr hctx, List.filterMap_cons]
        have hnone : triggerRule rs e t st r = none := by
          simp only [triggerRule, hrc]
          rw [if_neg]
          intro hfull
          exact hcond ⟨hfull.1, hfull.2.1, hfull.2.2.1⟩
        rw [hnone]

theorem tick_events_char (rs : RecState) (sch : Scheduler) (e : EngineState)
    (t : ℚ) (hnd : sch.clipsSnap.Nodup) (hctx : e.ctxInit = true) :
    (tick rs sch e t).snd.snd
      = sch.clipsSnap.filterMap (triggerRule rs e t sch.started) :=
  tickGo_events_char rs t sch.clipsSnap sch.started e hnd hctx

theorem triggerRule_some_inv (rs : RecState) (e : EngineState) (t : ℚ)
    (st : List Nat) (a : Nat) (ev : PlayEvent)
    (h : triggerRule rs e t st a = some ev) :
    ∃ c, readClip rs a = some c
      ∧ ev = ⟨a, t - c.startTime, getClipGain e a⟩
      ∧ c.startTime ≤ t ∧ t < c.startTime + c.duration ∧ a ∉ st
      ∧ c.audioBuffer ≠ none := by
  cases hca : readClip rs a with
  | none => simp [triggerRule, hca] at h
  | some ca =>
    simp only [triggerRule, hca] at h
    split at h
    · rename_i hcondall
      exact ⟨ca, rfl, (Option.some_inj.mp h).symm, hcondall.1, hcondall.2.1,
        hcondall.2.2.1, hcondall.2.2.2⟩
    · exact Option.noConfusion h

/-- Per-tick trigger condition, as an equivalence: a buffered clip in the
snapshot fires exactly when the time is in its window and it has not
started yet; the emitted event plays from `t - startTime` at the clip's
current gain. -/
theorem tick_triggers_iff (rs : RecState) (sch : Scheduler) (e : EngineState)
    (t : ℚ) (r : Nat) (c : ClipObj) (hnd : sch.clipsSnap.Nodup)
    (hctx : e.ctxInit = true) (hmem : r ∈ sch.clipsSnap)
    (hrc : readClip rs r = some c) (hbuf : c.audioBuffer ≠ none) :
    ((∃ ev ∈ (tick rs sch e t).snd.snd, ev.clipId = r)
        ↔ (c.startTime ≤ t ∧ t < c.startTime + c.duration
            ∧ r ∉ sch.started))
    ∧ (∀ ev ∈ (tick rs sch e t).snd.snd, ev.clipId = r →
        ev = ⟨r, t - c.startTime, getClipGain e r⟩) := by
  rw [tick_events_char rs sch e t hnd hctx]
  constructor
  · constructor
    · rintro ⟨ev, hev, hevid⟩
      obtain ⟨a, _, hfa⟩ := List.mem_filterMap.mp hev
      obtain ⟨ca, hca, heveq, hc1, hc2, hc3, _⟩ :=
        triggerRule_some_inv rs e t sch.started a ev hfa
      have har : a = r := by rw [← hevid, heveq]
      subst har
      have hcc : ca = c := Option.some_inj.mp (hca.symm.trans hrc)
      subst hcc
      exact ⟨hc1, hc2, hc3⟩
    · intro hc
      refine ⟨⟨r, t - c.startTime, getClipGain e r⟩, ?_, rfl⟩
      apply List.mem_filterMap.mpr
      refine ⟨r, hmem, ?_⟩
      simp only [triggerRule, hrc]
      rw [if_pos ⟨hc.1, hc.2.1, hc.2.2, hbuf⟩]
  · intro ev hev hevid
    obtain ⟨a, _, hfa⟩ := List.mem_filterMap.mp hev
    obtain ⟨ca, hca, heveq, _, _, _, _⟩ :=
      triggerRule_some_inv rs e t sch.started a ev hfa
    have har : a = r := by rw [← hevid, heveq]
    subst har
    have hcc : ca = c := Option.some_inj.mp (hca.symm.trans hrc)
    subst hcc
    exact heveq

/-- The §8 scheduler test clip: `{id: 1, start: 2, duration: 3}`. -/
def schedStore : RecState :=
  ⟨[(1, ⟨2, 3, some demoBuf⟩)], [1], 2, false, 0, []⟩

/-- C3: Within one run (no reset) the scheduler starts each clip at most
once; a tick triggers a buffered clip exactly when the time is inside
`[startTime, startTime + duration)` and the clip is not in the triggered
set, playing from `currentTime - startTime` at the clip's current gain;
and after a reset (the app discards the scheduler and builds a fresh one,
`part_000` `_restartClipPlayback`) the clip triggers again.  Concretely,
with clip `{id: 1, start: 2, duration: 3}`: ticks `1, 2.5, 4` trigger id 1
exactly once (at 2.5, offset 0.5), and after a reset a tick at 2.5
triggers it again. -/
theorem scheduler_triggers_once :
    (∀ (rs : RecState) (sch : Scheduler) (e : EngineState) (ts : List ℚ)
        (id : Nat),
      ((runTicks rs sch e ts).snd.snd.map PlayEvent.clipId).count id ≤ 1)
    ∧ (∀ (rs : RecState) (sch : Scheduler) (e : EngineState) (t : ℚ)
        (r : Nat) (c : ClipObj), sch.clipsSnap.Nodup → e.ctxInit = true →
        r ∈ sch.clipsSnap → readClip rs r = some c → c.audioBuffer ≠ none →
        ((∃ ev ∈ (tick rs sch e t).snd.snd, ev.clipId = r)
            ↔ (c.startTime ≤ t ∧ t < c.startTime + c.duration
                ∧ r ∉ sch.started))
        ∧ (∀ ev ∈ (tick rs sch e t).snd.snd, ev.clipId = r →
            ev = ⟨r, t - c.startTime, getClipGain e r⟩))
    ∧ (runTicks schedStore (createClipScheduler (getAllClips schedStore))
        (engineInit initialEngine) [1, 5/2, 4]).snd.snd
        = [⟨1, 1/2, 4/5⟩]
    ∧ (tick schedStore (createClipScheduler (getAllClips schedStore))
        (stopAllClips
          (runTicks schedStore (createClipScheduler (getAllClips schedStore))
            (engineInit initialEngine) [1, 5/2, 4]).snd.fst)
        (5/2)).snd.snd
        = [⟨1, 1/2, 4/5⟩] := by
  refine ⟨fun rs sch e ts id => (runTicks_spec rs ts sch e).2.2 id,
    fun rs sch e t r c hnd hctx hmem hrc hbuf =>
      tick_triggers_iff rs sch e t r c hnd hctx hmem hrc hbuf, ?_, ?_⟩
  · norm_num [runTicks, tick, tickGo, readClip, alistGet, playClip,
      getClipGain, stopAllClips, createClipScheduler, getAllClips,
      schedStore, engineInit, initialEngine, Option.some_ne_none]
  · norm_num [runTicks, tick, tickGo, readClip, alistGet, playClip,
      getClipGain, stopAllClips, createClipScheduler, getAllClips,
      schedStore, engineInit, initialEngine, Option.some_ne_none]

/-- Witness for C3: the trigger rule applied at time 2.5 to the §8 test
clip. -/
theorem scheduler_triggers_once_witness :
    1 ∈ (createClipScheduler (getAllClips schedStore)).clipsSnap
    ∧ readClip schedStore 1 = some ⟨2, 3, some demoBuf⟩
    ∧ (((∃ ev ∈ (tick schedStore (createClipScheduler (getAllClips schedStore))
          (engineInit initialEngine) (5/2)).snd.snd, ev.clipId = 1)
        ↔ ((2 : ℚ) ≤ 5/2 ∧ (5/2 : ℚ) < 2 + 3
            ∧ 1 ∉ (createClipScheduler (getAllClips schedStore)).started))
      ∧ (∀ ev ∈ (tick schedStore (createClipScheduler (getAllClips schedStore))
          (engineInit initialEngine) (5/2)).snd.snd, ev.clipId = 1 →
          ev = ⟨1, 5/2 - 2, getClipGain (engineInit initialEngine) 1⟩)) :=
  ⟨by decide, rfl,
   scheduler_triggers_once.2.1 schedStore
     (createClipScheduler (getAllClips schedStore)) (engineInit initialEngine)
     (5/2) 1 ⟨2, 3, some demoBuf⟩ (by decide) rfl (by decide) rfl (by simp)⟩

/-! ## C9: what a tick re-reads and what it caches -/

/-- `tick` reads the store only by dereferencing clip objects, so two
states with the same heap tick identically. -/
theorem tickGo_heap_eq (rs rs' : RecState) (h : rs.heap = rs'.heap) (t : ℚ)
    (l : List Nat) : ∀ (st : List Nat) (e : EngineState),
    tickGo rs t l st e = tickGo rs' t l st e := by
  induction l with
  | nil => intro st e; rfl
  | cons r rest ih =>
    intro st e
    have hrc : readClip rs r = readClip rs' r := by
      unfold readClip
      rw [h]
    cases hc : readClip rs' r with
    | none =>
      simp only [tickGo, hrc, hc]
      exact ih st e
    | some c =>
      simp only [tickGo, hrc, hc]
      split
      · rw [ih]
      · exact ih st e

/-- Counterexample to C9 as stated: the scheduler iterates the clip array
captured at creation, so a clip deleted from the store after the scheduler
was created still triggers at a later tick (deletion is not re-fetched). -/
theorem scheduler_stale_deletion_counterexample :
    getAllClips (deleteClip schedStore 1) = []
    ∧ (tick (deleteClip schedStore 1)
        (createClipScheduler (getAllClips schedStore))
        (engineInit initialEngine) (5/2)).snd.snd
        = [⟨1, 1/2, 4/5⟩] := by
  constructor
  · decide
  · norm_num [tick, tickGo, readClip, alistGet, playClip, getClipGain,
      createClipScheduler, getAllClips, deleteClip, schedStore, engineInit,
      initialEngine, Option.some_ne_none]

/-- C9 (amended): a tick dereferences the clip objects and reads the gain
map at tick time, so moves (`startTime`) and gain changes made between
scheduler creation and the tick are reflected; but which clips exist is
not re-fetched: the scheduler iterates the array captured at creation, so
deletions are invisible to it (`tick` is unchanged by `deleteClip`).  (The
app compensates by discarding the scheduler on every edit,
`part_000` `_restartClipPlayback`.) -/
theorem scheduler_rereads_objects_not_list :
    (∀ (rs : RecState) (id : Nat) (sch : Scheduler) (e : EngineState)
        (t : ℚ), tick (deleteClip rs id) sch e t = tick rs sch e t)
    ∧ (∀ (s : RecState) (id : Nat) (t2 : ℚ) (c : ClipObj),
        readClip s id = some c → id ∈ s.clips →
        readClip (moveClip s id t2) id
          = some { c with startTime := jsMax 0 t2 })
    ∧ (∀ (e : EngineState) (id : Nat) (g : ℚ) (c : ClipObj) (off : ℚ),
        (setClipVolume e id g).ctxInit = true → c.audioBuffer ≠ none →
        (playClip (setClipVolume e id g) id c off).snd
          = some ⟨id, off, g⟩) := by
  refine ⟨?_, ?_, ?_⟩
  · intro rs id sch e t
    unfold tick
    rw [tickGo_heap_eq (deleteClip rs id) rs rfl t sch.clipsSnap
      sch.started e]
  · intro s id t2 c hrc hin
    unfold moveClip
    rw [if_pos hin]
    show alistGet (alistModify _ s.heap id) id = _
    rw [alistGet_modify_self]
    unfold readClip at hrc
    rw [hrc]
    rfl
  · intro e id g c off hctx hbuf
    unfold playClip
    rw [if_neg]
    · have hg : getClipGain (setClipVolume e id g) id = g := by
        unfold getClipGain setClipVolume
        rw [alistGet_set_self]
        rfl
      simp only [hg]
    · intro hor
      rcases hor with h | h
      · rw [hctx] at h
        exact Bool.noConfusion h
      · exact hbuf h

/-- Witness for amended C9: delete-invariance of a tick, a reflected move,
and a reflected gain change, all at concrete inputs. -/
theorem scheduler_rereads_objects_not_list_witness :
    (tick (deleteClip schedStore 1)
        (createClipScheduler (getAllClips schedStore))
        (engineInit initialEngine) (5/2)
      = tick schedStore (createClipScheduler (getAllClips schedStore))
        (engineInit initialEngine) (5/2))
    ∧ (readClip schedStore 1 = some ⟨2, 3, some demoBuf⟩
      ∧ 1 ∈ schedStore.clips
      ∧ readClip (moveClip schedStore 1 7) 1
          = some ⟨jsMax 0 7, 3, some demoBuf⟩)
    ∧ ((setClipVolume (engineInit initialEngine) 1 (1/4)).ctxInit = true
      ∧ (playClip (setClipVolume (engineInit initialEngine) 1 (1/4)) 1
          ⟨2, 3, some demoBuf⟩ 0).snd = some ⟨1, 0, 1/4⟩) :=
  ⟨scheduler_rereads_objects_not_list.1 schedStore 1
     (createClipScheduler (getAllClips schedStore))
     (engineInit initialEngine) (5/2),
   ⟨rfl, by decide,
    scheduler_rereads_objects_not_list.2.1 schedStore 1 7
      ⟨2, 3, some demoBuf⟩ rfl (by decide)⟩,
   ⟨rfl,
    scheduler_rereads_objects_not_list.2.2 (engineInit initialEngine) 1
      (1/4) ⟨2, 3, some demoBuf⟩ 0 rfl (by simp)⟩⟩

end ThiptinesDay
